import Mathlib

/-!
Shallow embedding of ihm/location.py: the Location class hierarchy
(database- and file-location variants with `_eq_keys`-driven equality),
Repository, FileLocation construction against a modelled filesystem, and
`Repository._update_in_repos` path resolution.

Python strings are Lean `String`s; Python `None`-able attributes are
`Option`s; raised exceptions are modelled with an explicit error type
(`PyError`), either through `Except` results or by returning the
post-mutation state together with an optional error.

The `os.path` functions the source delegates to (`os.path.abspath`,
`os.path.relpath`, `os.path.normpath`, `os.path.join`) are modelled
faithfully after the CPython posixpath implementation, with the process
working directory (`os.getcwd()`) passed explicitly as `cwd`.
String primitives are implemented over `String.data` by structural
recursion so that closed instances evaluate inside the kernel.
-/

/-- `strPrefixB pre l` is true iff the char list `pre` is an initial
segment of `l`; this implements the Python method startswith over the
underlying character lists. -/
def strPrefixB : List Char → List Char → Bool
  | [], _ => true
  | _ :: _, [] => false
  | a :: as, b :: bs => a = b && strPrefixB as bs

/-- Model of the Python expression s.startswith(p). -/
def pyStartsWith (s p : String) : Bool :=
  strPrefixB p.data s.data

/-- Model of the Python expression s.endswith(p). -/
def pyEndsWith (s p : String) : Bool :=
  strPrefixB p.data.reverse s.data.reverse

/-- Split a char list at every slash, keeping empty components, as
the Python split method does. -/
def splitSlashCh : List Char → List (List Char)
  | [] => [[]]
  | c :: cs =>
    match splitSlashCh cs with
    | [] => [[]]
    | w :: ws => if c = '/' then [] :: w :: ws else (c :: w) :: ws

/-- Model of the Python expression path.split with separator slash. -/
def pySplitSlash (s : String) : List String :=
  (splitSlashCh s.data).map String.mk

/-- Model of the Python slash join of a component list. -/
def joinSlash : List String → String
  | [] => ""
  | [x] => x
  | x :: y :: xs => x ++ "/" ++ joinSlash (y :: xs)

/-- Component-processing loop of the CPython posixpath.normpath:
drop empty and `.` components, let `..` cancel a preceding real
component, and keep leading `..`s only for relative paths. -/
def normComps (initSl : Nat) (acc : List String) : List String → List String
  | [] => acc
  | comp :: rest =>
    if comp = "" ∨ comp = "." then normComps initSl acc rest
    else if comp ≠ ".." ∨ (initSl = 0 ∧ acc = []) ∨ (acc ≠ [] ∧ acc.getLast? = some "..") then
      normComps initSl (acc ++ [comp]) rest
    else if acc ≠ [] then normComps initSl acc.dropLast rest
    else normComps initSl acc rest

/-- Model of CPython posixpath.normpath: collapse `.`/`..`/empty components,
preserving one leading slash (or exactly two, per POSIX). -/
def normpath (path : String) : String :=
  if path = "" then "."
  else
    let initSl : Nat :=
      if pyStartsWith path "/" then
        if pyStartsWith path "//" ∧ ¬ pyStartsWith path "///" then 2 else 1
      else 0
    let comps := normComps initSl [] (pySplitSlash path)
    let p := String.mk (List.replicate initSl '/') ++ joinSlash comps
    if p = "" then "." else p

/-- Model of CPython posixpath.isabs. -/
def isabs (p : String) : Bool := pyStartsWith p "/"

/-- Model of CPython posixpath.join for two components. -/
def pjoin (a b : String) : String :=
  if pyStartsWith b "/" then b
  else if a = "" ∨ pyEndsWith a "/" then a ++ b
  else a ++ "/" ++ b

/-- Model of CPython posixpath.abspath, with the working directory `cwd`
passed explicitly in place of `os.getcwd()`. -/
def abspath (cwd path : String) : String :=
  if isabs path then normpath path else normpath (pjoin cwd path)

/-- Length of the longest common initial segment of two component lists,
as `os.path.commonprefix` computes on a pair of sequences. -/
def commonPrefixLen : List String → List String → Nat
  | a :: as, b :: bs => if a = b then commonPrefixLen as bs + 1 else 0
  | _, _ => 0

/-- Result that CPython posixpath.relpath computes once
`path` is known to be nonempty. -/
def relOf (cwd path start : String) : String :=
  let startList := (pySplitSlash (abspath cwd start)).filter (fun x => ¬ x = "")
  let pathList := (pySplitSlash (abspath cwd path)).filter (fun x => ¬ x = "")
  let i := commonPrefixLen startList pathList
  let relList := List.replicate (startList.length - i) ".." ++ pathList.drop i
  if relList = [] then "." else joinSlash relList

/-- Python exceptions raised by the modelled code. -/
inductive PyError where
  | valueError (msg : String)
  | attributeError (msg : String)
deriving DecidableEq, Repr

/-- Model of CPython posixpath.relpath: raises a ValueError on an
empty `path`, otherwise total string computation `relOf`. -/
def relpath (cwd path start : String) : Except PyError String :=
  if path = "" then .error (.valueError "no path specified")
  else .ok (relOf cwd path start)

/-- `class Repository`: `doi`, `url`, `top_directory` (both default
`None`), and the private `_root`, which `__init__` sets only when a
`root` argument is given — `none` here models the attribute being
absent from the instance. -/
structure Repository where
  doi : String
  url : Option String := none
  top_directory : Option String := none
  _root : Option String := none
deriving DecidableEq, Repr

/-- `Repository.__eq__`: two repositories compare equal iff their DOIs
and URLs are the same; `root`/`top_directory` play no part. -/
def repoEq (a b : Repository) : Bool :=
  decide (a.doi = b.doi) && decide (a.url = b.url)

/-- `Repository.__init__(doi, root=None, url=None, top_directory=None)`:
stores `doi`, `url`, `top_directory` as given and, when `root` is given,
sets `_root` to its absolute path (`os.path.abspath(root)`). -/
def mkRepository (cwd doi : String) (root url top_directory : Option String) : Repository :=
  { doi := doi, url := url, top_directory := top_directory,
    _root := root.map (abspath cwd) }

/-- The concrete classes of the `FileLocation` branch of the hierarchy:
`FileLocation` itself and the four subclasses that fix `content_type`. -/
inductive FileClass where
  | fileLocation
  | inputFileLocation
  | outputFileLocation
  | workflowFileLocation
  | visualizationFileLocation
deriving DecidableEq, Repr

/-- The class-level `content_type` attribute: `None` on `FileLocation`,
a fixed descriptive string on each of its four subclasses. -/
def content_type : FileClass → Option String
  | .fileLocation => none
  | .inputFileLocation => some "Input data or restraints"
  | .outputFileLocation => some "Modeling or post-processing output"
  | .workflowFileLocation => some "Modeling workflow or script"
  | .visualizationFileLocation => some "Visualization script"

/-- Instance state of a `FileLocation` (of concrete class `cls`):
`details` from `Location.__init__`, plus `repo`, `path` and `file_size`
set by `FileLocation.__init__` (and `repo`/`path` possibly rewritten
later by `Repository._update_in_repos`). -/
structure FileLocation where
  cls : FileClass
  details : Option String := none
  repo : Option Repository := none
  path : String
  file_size : Option Nat := none
deriving DecidableEq, Repr

/-- Filesystem state read by the only I/O in the module: os.path.exists,
`os.stat(...).st_size`, and the working directory `os.getcwd()` used by
`os.path.abspath`. -/
structure FileSystem where
  pathExists : String → Bool
  statSize : String → Nat
  cwd : String

/-- `FileLocation.__init__(path, repo=None, details=None)`: with a repo,
store `path` verbatim and leave `file_size` unknown; without one, raise
`ValueError("%s does not exist" % path)` unless the path exists, else
record the byte size via `os.stat` and the absolute path. -/
def mkFileLocation (fs : FileSystem) (cls : FileClass) (path : String)
    (repo : Option Repository) (details : Option String) : Except PyError FileLocation :=
  match repo with
  | some r =>
    .ok { cls := cls, details := details, repo := some r, path := path, file_size := none }
  | none =>
    if fs.pathExists path then
      .ok { cls := cls, details := details, repo := none,
            path := abspath fs.cwd path, file_size := some (fs.statSize path) }
    else
      .error (.valueError (path ++ " does not exist"))

/-- The concrete classes of the `DatabaseLocation` branch:
`DatabaseLocation` itself and the five subclasses that fix `db_name`. -/
inductive DbClass where
  | databaseLocation
  | emdbLocation
  | pdbLocation
  | massiveLocation
  | empiarLocation
  | sasbdbLocation
deriving DecidableEq, Repr

/-- Instance state of a `DatabaseLocation`: `db_name`, `access_code`
(constructor argument `db_code`), optional `version`. -/
structure DbFields where
  db_name : String
  access_code : String
  version : Option String := none
deriving DecidableEq, Repr

/-- A concrete class in the `Location` hierarchy. -/
inductive LocClass where
  | location
  | dbC (c : DbClass)
  | fileC (c : FileClass)
deriving DecidableEq, Repr

/-- An instance of the `Location` hierarchy: a plain `Location`, a
`DatabaseLocation` of some concrete class, or a `FileLocation` of some
concrete class. The `oid` field models the CPython id of the instance (used by
`_eq_vals` only when `_allow_duplicates` is set). -/
inductive Location where
  | base (oid : Nat) (details : Option String)
  | db (oid : Nat) (dcls : DbClass) (details : Option String) (d : DbFields)
  | file (oid : Nat) (f : FileLocation)
deriving DecidableEq, Repr

/-- The concrete class of a `Location` instance (`self.__class__`). -/
def Location.cls : Location → LocClass
  | .base _ _ => .location
  | .db _ c _ _ => .dbC c
  | .file _ f => .fileC f.cls

/-- Model of the CPython id of a `Location` instance. -/
def Location.oid : Location → Nat
  | .base i _ => i
  | .db i _ _ _ => i
  | .file i _ => i

/-- The `details` attribute of a `Location` instance. -/
def Location.details : Location → Option String
  | .base _ d => d
  | .db _ _ d _ => d
  | .file _ f => f.details

/-- The class attribute `_eq_keys`: `[]` on `Location`,
the db_name, access_code and version keys on the `DatabaseLocation`
family, the repo, path and content_type keys on the `FileLocation`
family. -/
def _eq_keys : LocClass → List String
  | .location => []
  | .dbC _ => ["db_name", "access_code", "version"]
  | .fileC _ => ["repo", "path", "content_type"]

/-- The class attribute `_allow_duplicates`: `False` on `Location` and
never overridden by any class in this module. -/
def _allow_duplicates : LocClass → Bool := fun _ => false

/-- A Python value that can appear in an `_eq_vals` tuple. -/
inductive PyVal where
  | noneV
  | str (s : String)
  | clsV (c : LocClass)
  | repoV (r : Repository)
deriving DecidableEq, Repr

/-- View an optional string attribute as a Python value. -/
def optStrV : Option String → PyVal
  | none => .noneV
  | some s => .str s

/-- View the optional `repo` attribute as a Python value. -/
def optRepoV : Option Repository → PyVal
  | none => .noneV
  | some r => .repoV r

/-- `getattr(self, name)` on a `Location` instance, for the attributes
this module defines; `none` models `AttributeError`. -/
def pyGetattr : Location → String → Option PyVal
  | .db _ _ _ d, "db_name" => some (.str d.db_name)
  | .db _ _ _ d, "access_code" => some (.str d.access_code)
  | .db _ _ _ d, "version" => some (optStrV d.version)
  | .file _ f, "repo" => some (optRepoV f.repo)
  | .file _ f, "path" => some (.str f.path)
  | .file _ f, "content_type" => some (optStrV (content_type f.cls))
  | .base _ d, "details" => some (optStrV d)
  | .db _ _ dd _, "details" => some (optStrV dd)
  | .file _ f, "details" => some (optStrV f.details)
  | _, _ => none

/-- The value `Location._eq_vals` returns: `id(self)` when the class
allows duplicates, else the tuple `(self.__class__, *eq_key_values)`. -/
inductive EqVals where
  | ident (oid : Nat)
  | vals (l : List PyVal)
deriving DecidableEq, Repr

/-- `Location._eq_vals`: `id(self)` under `_allow_duplicates`, else the
tuple of the class followed by `getattr(self, x) for x in _eq_keys`.
Every key in `_eq_keys self.__class__` resolves on a real instance
(lemma `pyGetattr_eq_keys_isSome`), so the `.getD .noneV` default is
never taken. -/
def _eq_vals (l : Location) : EqVals :=
  if _allow_duplicates l.cls then .ident l.oid
  else .vals (.clsV l.cls :: (_eq_keys l.cls).map (fun k => (pyGetattr l k).getD .noneV))

/-- Python `==` on two `_eq_vals` tuple elements. `Repository.__eq__`
reads `other.doi`, so comparing a `Repository` with any non-`Repository`
(directly or as the reflected comparison) raises `AttributeError`;
strings and classes compare structurally; mismatched other kinds
fall back to identity and give `False`. -/
def pyEq : PyVal → PyVal → Except PyError Bool
  | .repoV r₁, .repoV r₂ => .ok (repoEq r₁ r₂)
  | .repoV _, _ => .error (.attributeError "object has no attribute doi")
  | _, .repoV _ => .error (.attributeError "object has no attribute doi")
  | .noneV, .noneV => .ok true
  | .str s₁, .str s₂ => .ok (decide (s₁ = s₂))
  | .clsV c₁, .clsV c₂ => .ok (decide (c₁ = c₂))
  | _, _ => .ok false

/-- Python `==` on two optional attribute-lookup results; comparing
anything against a failed lookup cannot return `True`. -/
def pyEqO : Option PyVal → Option PyVal → Except PyError Bool
  | some a, some b => pyEq a b
  | _, _ => .error (.attributeError "_eq_vals attribute lookup failed")

/-- CPython tuple `==`: scan elementwise, propagating errors, stopping
`False` at the first unequal pair or on a length mismatch. -/
def tupleEq : List PyVal → List PyVal → Except PyError Bool
  | [], [] => .ok true
  | [], _ :: _ => .ok false
  | _ :: _, [] => .ok false
  | a :: as, b :: bs =>
    match pyEq a b with
    | .error e => .error e
    | .ok true => tupleEq as bs
    | .ok false => .ok false

/-- Python `==` on two `_eq_vals` results: `int == int` by value,
`tuple == tuple` elementwise, `int == tuple` falls back to `False`. -/
def eqValsEq : EqVals → EqVals → Except PyError Bool
  | .ident i, .ident j => .ok (decide (i = j))
  | .vals a, .vals b => tupleEq a b
  | _, _ => .ok false

/-- `Location.__eq__` between two `Location` instances:
`self._eq_vals() == other._eq_vals()`. -/
def locEq (a b : Location) : Except PyError Bool :=
  eqValsEq (_eq_vals a) (_eq_vals b)

/-- An arbitrary Python object handed to `Location.__eq__` as `other`:
either a `Location` instance or a value of an unrelated type with no
`_eq_vals` attribute (an int or a string, say). -/
inductive PyObj where
  | loc (l : Location)
  | intObj (n : Int)
  | strObj (s : String)

/-- `Location.__eq__(self, other)` for an arbitrary `other`: the body
evaluates `other._eq_vals()`, which raises `AttributeError` whenever
`other` is not a `Location`. -/
def locEqAny (a : Location) : PyObj → Except PyError Bool
  | .loc b => locEq a b
  | .intObj _ => .error (.attributeError "int object has no attribute _eq_vals")
  | .strObj _ => .error (.attributeError "str object has no attribute _eq_vals")

/-- Replace the `details` attribute of a `Location` instance. -/
def withDetails : Location → Option String → Location
  | .base i _, d => .base i d
  | .db i c _ f, d => .db i c d f
  | .file i f, d => .file i { f with details := d }

/-- The `for repo in repos` loop of `Repository._update_in_repos`:
`orig_path` is the path captured before the loop, `loc` the mutable
`fileloc`. Reading `repo._root` on a repository constructed without a
root raises `AttributeError`; `os.path.relpath` raises `ValueError` on
an empty path. On a raise the location keeps the mutations applied so
far, as the Python object would. -/
def updateLoop (cwd orig_path : String) (loc : FileLocation) :
    List Repository → FileLocation × Option PyError
  | [] => (loc, none)
  | repo :: rest =>
    match repo._root with
    | none => (loc, some (.attributeError "Repository object has no attribute _root"))
    | some root =>
      match relpath cwd orig_path root with
      | .error e => (loc, some e)
      | .ok rel =>
        if ¬ pyStartsWith rel ".." then
          if loc.repo = none ∨ loc.path.length > rel.length then
            updateLoop cwd orig_path { loc with repo := some repo, path := rel } rest
          else updateLoop cwd orig_path loc rest
        else updateLoop cwd orig_path loc rest

/-- `Repository._update_in_repos(fileloc, repos)`: return immediately if
the location already has a repository, else run the matching loop over
`repos` starting from the current path of the location. Returns the final
(possibly partially updated) location and the raised exception, if
any. -/
def _update_in_repos (cwd : String) (loc : FileLocation) (repos : List Repository) :
    FileLocation × Option PyError :=
  match loc.repo with
  | some _ => (loc, none)
  | none => updateLoop cwd loc.path loc repos

/-- The candidates `_update_in_repos` considers matches: repositories
with a root whose relative path for `orig_path` does not start with the
parent-directory marker `".."`, paired with that relative path, in
`repos` order. -/
def matchCands (cwd orig_path : String) : List Repository → List (Repository × String)
  | [] => []
  | r :: rest =>
    match r._root with
    | none => matchCands cwd orig_path rest
    | some root =>
      match relpath cwd orig_path root with
      | .error _ => matchCands cwd orig_path rest
      | .ok rel =>
        if pyStartsWith rel ".." then matchCands cwd orig_path rest
        else (r, rel) :: matchCands cwd orig_path rest

/-- The first element of a list attaining the minimum of `f`: the
matching candidate that the strict shorter-than-stored comparison of the loop
comparison ends up keeping. -/
def firstMinBy {α : Type} (f : α → Nat) : List α → Option α
  | [] => none
  | c :: cs =>
    match firstMinBy f cs with
    | none => some c
    | some d => if f c ≤ f d then some c else some d

/-- Accumulator form of the loop selection: fold over the
candidates, replacing the stored best only by a strictly shorter one. -/
def bestOfBy {α : Type} (f : α → Nat) : Option α → List α → Option α
  | b, [] => b
  | b, c :: cs =>
    bestOfBy f
      (match b with
       | none => some c
       | some d => if f c < f d then some c else some d) cs

/-- Rebind a location to a chosen candidate repository and relative
path, or leave it unchanged when there is none. -/
def applyCand (loc : FileLocation) : Option (Repository × String) → FileLocation
  | none => loc
  | some (r, p) => { loc with repo := some r, path := p }

/-- Length of the relative path of a candidate. -/
def candLen (c : Repository × String) : Nat := c.2.length

/-- A concrete input-file location (details set, repository checked out
at /r1), used to exercise the equality convention on closed
instances. -/
def locA : Location :=
  .file 0 { cls := .inputFileLocation, details := some "run A",
            repo := some { doi := "10.1/x", url := some "u",
                           top_directory := none, _root := some "/r1" },
            path := "data/f.txt", file_size := none }

/-- A concrete input-file location that differs from `locA` in
`details`, `file_size`, the object id, and the non-equality fields of
its repository (`top_directory`, `_root`). -/
def locB : Location :=
  .file 1 { cls := .inputFileLocation, details := none,
            repo := some { doi := "10.1/x", url := some "u",
                           top_directory := some "t", _root := none },
            path := "data/f.txt", file_size := some 9 }


/-! Helper lemmas. -/

theorem strPrefixB_append_self (l m : List Char) : strPrefixB l (l ++ m) = true := by
  induction l with
  | nil => rfl
  | cons a as ih => simp [strPrefixB, ih]

theorem strPrefixB_append_of (p a m : List Char) (h : strPrefixB p a = true) :
    strPrefixB p (a ++ m) = true := by
  induction p generalizing a with
  | nil => rfl
  | cons x xs ih =>
    cases a with
    | nil => simp [strPrefixB] at h
    | cons y ys =>
      simp only [strPrefixB, Bool.and_eq_true, decide_eq_true_eq] at h ⊢
      exact ⟨h.1, ih ys h.2⟩

theorem pyStartsWith_append (p s : String) : pyStartsWith (p ++ s) p = true := by
  simp only [pyStartsWith, String.data_append]
  exact strPrefixB_append_self p.data s.data

/-- A string whose data begins with a slash stays slash-initial after
appending. -/
theorem pyStartsWith_slash_append (a b : String) (h : pyStartsWith a "/" = true) :
    pyStartsWith (a ++ b) "/" = true := by
  simp only [pyStartsWith, String.data_append] at h ⊢
  exact strPrefixB_append_of _ _ _ h

/-- A slash-replicate followed by anything is a nonempty slash-initial
string, also after the final empty-string guard of `normpath`. -/
theorem slashHead_ifEmpty (n : Nat) (hn : 0 < n) (t : String) :
    pyStartsWith
      (if (String.mk (List.replicate n '/') ++ t) = "" then "."
       else (String.mk (List.replicate n '/') ++ t)) "/" = true := by
  obtain ⟨m, rfl⟩ : ∃ m, n = m + 1 := ⟨n - 1, by omega⟩
  have hdata : (String.mk (List.replicate (m + 1) '/') ++ t).data
      = '/' :: (List.replicate m '/' ++ t.data) := by
    simp [String.data_append, List.replicate]
  have hne : (String.mk (List.replicate (m + 1) '/') ++ t) ≠ "" := by
    intro he
    have hd := congrArg String.data he
    rw [hdata] at hd
    simp at hd
  rw [if_neg hne]
  have hslash : ("/" : String).data = ['/'] := rfl
  simp [pyStartsWith, hslash, hdata, strPrefixB]

theorem normpath_abs (s : String) (h : pyStartsWith s "/" = true) :
    pyStartsWith (normpath s) "/" = true := by
  have hne : s ≠ "" := by rintro rfl; exact absurd h (by decide)
  unfold normpath
  rw [if_neg hne, if_pos h]
  split
  · exact slashHead_ifEmpty 2 (by omega) _
  · exact slashHead_ifEmpty 1 (by omega) _

theorem pjoin_abs (a b : String) (h : pyStartsWith a "/" = true) :
    pyStartsWith (pjoin a b) "/" = true := by
  unfold pjoin
  split
  · assumption
  · split
    · rename_i hor
      rcases hor with rfl | _
      · exact absurd h (by decide)
      · exact pyStartsWith_slash_append a b h
    · exact pyStartsWith_slash_append _ _ (pyStartsWith_slash_append a "/" h)

theorem abspath_abs (cwd p : String) (hcwd : pyStartsWith cwd "/" = true) :
    pyStartsWith (abspath cwd p) "/" = true := by
  unfold abspath
  split
  · rename_i hp
    exact normpath_abs p hp
  · exact normpath_abs _ (pjoin_abs cwd p hcwd)

/-! Claim theorems: FileLocation construction. -/

/-- C1: constructing a `FileLocation` with no repository and a path that
does not exist on disk raises the construction-failure error (the kind
the specification calls NotFoundError; in the code a `ValueError`)
whose message names the missing path. -/
theorem fileLocation_missing_path_raises (fs : FileSystem) (cls : FileClass)
    (path : String) (details : Option String) (h : fs.pathExists path = false) :
    mkFileLocation fs cls path none details
      = .error (.valueError (path ++ " does not exist"))
    ∧ pyStartsWith (path ++ " does not exist") path = true := by
  constructor
  · simp [mkFileLocation, h]
  · exact pyStartsWith_append path " does not exist"

theorem fileLocation_missing_path_raises_witness :
    mkFileLocation ⟨fun _ => false, fun _ => 0, "/"⟩ .fileLocation "nonexistent/path" none none
      = .error (.valueError ("nonexistent/path" ++ " does not exist"))
    ∧ pyStartsWith ("nonexistent/path" ++ " does not exist") "nonexistent/path" = true :=
  fileLocation_missing_path_raises ⟨fun _ => false, fun _ => 0, "/"⟩ .fileLocation
    "nonexistent/path" none rfl

/-- C7: constructing a `FileLocation` with no repository for an existing
path records the byte size reported by `os.stat` and stores the
absolute, canonicalized form of the input path (which begins with a
slash whenever the working directory is absolute). -/
theorem fileLocation_local_sets_size_abspath (fs : FileSystem) (cls : FileClass)
    (path : String) (details : Option String) (h : fs.pathExists path = true)
    (hcwd : pyStartsWith fs.cwd "/" = true) :
    mkFileLocation fs cls path none details
      = .ok { cls := cls, details := details, repo := none,
              path := abspath fs.cwd path, file_size := some (fs.statSize path) }
    ∧ pyStartsWith (abspath fs.cwd path) "/" = true := by
  constructor
  · simp [mkFileLocation, h]
  · exact abspath_abs fs.cwd path hcwd

theorem fileLocation_local_sets_size_abspath_witness :
    mkFileLocation ⟨fun _ => true, fun _ => 42, "/home/user"⟩ .inputFileLocation
        "data/file.txt" none none
      = .ok { cls := .inputFileLocation, details := none, repo := none,
              path := abspath "/home/user" "data/file.txt", file_size := some 42 }
    ∧ pyStartsWith (abspath "/home/user" "data/file.txt") "/" = true :=
  fileLocation_local_sets_size_abspath ⟨fun _ => true, fun _ => 42, "/home/user"⟩
    .inputFileLocation "data/file.txt" none rfl rfl

/-- C8: constructing a `FileLocation` with a repository stores the path
verbatim, leaves `file_size` unset, and is independent of the
filesystem (no existence check, no stat). -/
theorem fileLocation_with_repo_no_io (fs fs' : FileSystem) (cls : FileClass)
    (path : String) (r : Repository) (details : Option String) :
    mkFileLocation fs cls path (some r) details
      = .ok { cls := cls, details := details, repo := some r,
              path := path, file_size := none }
    ∧ mkFileLocation fs cls path (some r) details
      = mkFileLocation fs' cls path (some r) details := by
  exact ⟨rfl, rfl⟩

/-- C9: two repositories compare equal exactly when their `doi` and
`url` agree; `_root` and `top_directory` never affect the outcome. -/
theorem repository_eq_doi_url (a b : Repository) :
    (repoEq a b = true ↔ a.doi = b.doi ∧ a.url = b.url)
    ∧ ∀ rt rt' : Option String, ∀ td td' : Option String,
        repoEq { a with _root := rt, top_directory := td }
               { b with _root := rt', top_directory := td' } = repoEq a b := by
  constructor
  · simp [repoEq]
  · intro rt rt' td td'
    simp [repoEq]

/-! Lemmas about the `_update_in_repos` loop. -/

theorem updateLoop_frame (cwd orig : String) (repos : List Repository) :
    ∀ loc : FileLocation,
      (updateLoop cwd orig loc repos).1.cls = loc.cls
      ∧ (updateLoop cwd orig loc repos).1.details = loc.details
      ∧ (updateLoop cwd orig loc repos).1.file_size = loc.file_size := by
  induction repos with
  | nil => intro loc; exact ⟨rfl, rfl, rfl⟩
  | cons repo rest ih =>
    intro loc
    unfold updateLoop
    split
    · exact ⟨rfl, rfl, rfl⟩
    · split
      · exact ⟨rfl, rfl, rfl⟩
      · split
        · split
          · exact ih _
          · exact ih loc
        · exact ih loc

/-- C10: `_update_in_repos` can modify only `repo` and `path`; the
class (hence `content_type`), `details` and `file_size` of the location
are unchanged by every call, whether or not any repository matches and
whether or not the call raises. -/
theorem update_in_repos_frame (cwd : String) (loc : FileLocation) (repos : List Repository) :
    (_update_in_repos cwd loc repos).1.cls = loc.cls
    ∧ (_update_in_repos cwd loc repos).1.details = loc.details
    ∧ (_update_in_repos cwd loc repos).1.file_size = loc.file_size
    ∧ content_type (_update_in_repos cwd loc repos).1.cls = content_type loc.cls := by
  unfold _update_in_repos
  cases loc.repo with
  | some r => exact ⟨rfl, rfl, rfl, rfl⟩
  | none =>
    obtain ⟨h1, h2, h3⟩ := updateLoop_frame cwd loc.path repos loc
    exact ⟨h1, h2, h3, by rw [h1]⟩

/-- C5: a location whose `repo` is already set is returned untouched by
`_update_in_repos`, with no exception, for any repository sequence; in
particular a second call on the result of any such call is again a
no-op. -/
theorem update_in_repos_bound_noop (cwd : String) (loc : FileLocation)
    (repos : List Repository) (r : Repository) (h : loc.repo = some r) :
    _update_in_repos cwd loc repos = (loc, none)
    ∧ _update_in_repos cwd (_update_in_repos cwd loc repos).1 repos
        = _update_in_repos cwd loc repos := by
  have h1 : _update_in_repos cwd loc repos = (loc, none) := by
    unfold _update_in_repos
    rw [h]
  exact ⟨h1, by rw [h1]; exact h1⟩

theorem update_in_repos_bound_noop_witness :
    _update_in_repos "/" { cls := .fileLocation, path := "x", repo := some { doi := "d" } } []
      = ({ cls := .fileLocation, path := "x", repo := some { doi := "d" } }, none)
    ∧ _update_in_repos "/"
        (_update_in_repos "/" { cls := .fileLocation, path := "x", repo := some { doi := "d" } } []).1 []
      = _update_in_repos "/" { cls := .fileLocation, path := "x", repo := some { doi := "d" } } [] :=
  update_in_repos_bound_noop "/" _ [] { doi := "d" } rfl

/-! The first-minimum selection the loop implements. -/

theorem firstMinBy_cons {α : Type} (f : α → Nat) (c : α) (cs : List α) :
    firstMinBy f (c :: cs)
      = match firstMinBy f cs with
        | none => some c
        | some d => if f c ≤ f d then some c else some d := rfl

theorem firstMinBy_cons_ne_none {α : Type} (f : α → Nat) (c : α) (cs : List α) :
    firstMinBy f (c :: cs) ≠ none := by
  rw [firstMinBy_cons]
  rcases hcs : firstMinBy f cs with _ | d
  · simp
  · by_cases h : f c ≤ f d <;> simp [h]

theorem firstMinBy_eq_none {α : Type} (f : α → Nat) (l : List α)
    (h : firstMinBy f l = none) : l = [] := by
  cases l with
  | nil => rfl
  | cons c cs => exact absurd h (firstMinBy_cons_ne_none f c cs)

theorem firstMinBy_mem {α : Type} (f : α → Nat) (l : List α) :
    ∀ c, firstMinBy f l = some c → c ∈ l := by
  induction l with
  | nil =>
    intro c h
    have hn : (none : Option α) = some c := h
    cases hn
  | cons x xs ih =>
    intro c h
    rw [firstMinBy_cons] at h
    rcases hcs : firstMinBy f xs with _ | d <;> rw [hcs] at h
    · have hx : some x = some c := h
      cases hx
      exact List.mem_cons_self x xs
    · have h' : (if f x ≤ f d then some x else some d) = some c := h
      by_cases hxd : f x ≤ f d
      · rw [if_pos hxd] at h'
        cases h'
        exact List.mem_cons_self x xs
      · rw [if_neg hxd] at h'
        cases h'
        exact List.mem_cons_of_mem x (ih _ hcs)

theorem firstMinBy_min {α : Type} (f : α → Nat) (l : List α) :
    ∀ c, firstMinBy f l = some c → ∀ d ∈ l, f c ≤ f d := by
  induction l with
  | nil =>
    intro c h
    have hn : (none : Option α) = some c := h
    cases hn
  | cons x xs ih =>
    intro c h e he
    rw [firstMinBy_cons] at h
    rcases hcs : firstMinBy f xs with _ | d <;> rw [hcs] at h
    · have hx : some x = some c := h
      cases hx
      have hxs : xs = [] := firstMinBy_eq_none f xs hcs
      subst hxs
      rcases List.mem_cons.mp he with rfl | hf
      · exact le_refl _
      · cases hf
    · have h' : (if f x ≤ f d then some x else some d) = some c := h
      have hd := ih d hcs
      by_cases hxd : f x ≤ f d
      · rw [if_pos hxd] at h'
        cases h'
        rcases List.mem_cons.mp he with rfl | hf
        · exact le_refl _
        · exact le_trans hxd (hd e hf)
      · rw [if_neg hxd] at h'
        cases h'
        rcases List.mem_cons.mp he with rfl | hf
        · omega
        · exact hd e hf

theorem firstMinBy_first {α : Type} (f : α → Nat) (l : List α) :
    ∀ c, firstMinBy f l = some c →
      ∃ l₁ l₂, l = l₁ ++ c :: l₂ ∧ ∀ d ∈ l₁, f c < f d := by
  induction l with
  | nil =>
    intro c h
    have hn : (none : Option α) = some c := h
    cases hn
  | cons x xs ih =>
    intro c h
    rw [firstMinBy_cons] at h
    rcases hcs : firstMinBy f xs with _ | d <;> rw [hcs] at h
    · have hx : some x = some c := h
      cases hx
      exact ⟨[], xs, rfl, by simp⟩
    · have h' : (if f x ≤ f d then some x else some d) = some c := h
      by_cases hxd : f x ≤ f d
      · rw [if_pos hxd] at h'
        cases h'
        exact ⟨[], xs, rfl, by simp⟩
      · rw [if_neg hxd] at h'
        cases h'
        obtain ⟨l₁, l₂, heq, hlt⟩ := ih c hcs
        refine ⟨x :: l₁, l₂, by rw [heq]; rfl, ?_⟩
        intro e hse
        rcases List.mem_cons.mp hse with rfl | hf
        · omega
        · exact hlt e hf

theorem bestOfBy_some_eq_firstMinBy {α : Type} (f : α → Nat) (cs : List α) :
    ∀ b : α, bestOfBy f (some b) cs = firstMinBy f (b :: cs) := by
  induction cs with
  | nil => intro b; rfl
  | cons c cs ih =>
    intro b
    have hstep : bestOfBy f (some b) (c :: cs)
        = bestOfBy f (if f c < f b then some c else some b) cs := rfl
    rw [hstep]
    by_cases hcb : f c < f b
    · rw [if_pos hcb, ih c]
      obtain ⟨d₀, hd₀⟩ : ∃ d₀, firstMinBy f (c :: cs) = some d₀ := by
        rcases hv : firstMinBy f (c :: cs) with _ | d₀
        · exact absurd hv (firstMinBy_cons_ne_none f c cs)
        · exact ⟨d₀, rfl⟩
      have hmin : f d₀ ≤ f c :=
        firstMinBy_min f (c :: cs) d₀ hd₀ c (List.mem_cons_self c cs)
      rw [firstMinBy_cons f b (c :: cs), hd₀]
      show some d₀ = if f b ≤ f d₀ then some b else some d₀
      rw [if_neg (by omega : ¬ f b ≤ f d₀)]
    · rw [if_neg hcb, ih b]
      rw [firstMinBy_cons f b cs, firstMinBy_cons f b (c :: cs), firstMinBy_cons f c cs]
      rcases hcs : firstMinBy f cs with _ | d
      · show some b = if f b ≤ f c then some b else some c
        rw [if_pos (by omega : f b ≤ f c)]
      · by_cases hcd : f c ≤ f d
        · have hred : (match some d with
              | none => some c
              | some d => if f c ≤ f d then some c else some d)
              = if f c ≤ f d then some c else some d := rfl
          rw [hred, if_pos hcd]
          show (if f b ≤ f d then some b else some d) = if f b ≤ f c then some b else some c
          rw [if_pos (by omega : f b ≤ f c), if_pos (by omega : f b ≤ f d)]
        · have hred : (match some d with
              | none => some c
              | some d => if f c ≤ f d then some c else some d)
              = if f c ≤ f d then some c else some d := rfl
          rw [hred, if_neg hcd]

theorem bestOfBy_none_eq_firstMinBy {α : Type} (f : α → Nat) (l : List α) :
    bestOfBy f none l = firstMinBy f l := by
  cases l with
  | nil => rfl
  | cons c cs =>
    have hstep : bestOfBy f none (c :: cs) = bestOfBy f (some c) cs := rfl
    rw [hstep]
    exact bestOfBy_some_eq_firstMinBy f cs c

/-- Invariant of the matching loop: starting from a location rebound to
the best candidate seen so far, the loop finishes at the location
rebound to the accumulator-fold of the remaining candidates, and does
not raise, provided every repository has a root and the original path
is nonempty. -/
theorem updateLoop_bestOf (cwd orig : String) (loc : FileLocation)
    (hrepo : loc.repo = none) (horig : orig ≠ "") :
    ∀ (repos : List Repository) (b : Option (Repository × String)),
      (∀ r ∈ repos, r._root ≠ none) →
      updateLoop cwd orig (applyCand loc b) repos
        = (applyCand loc (bestOfBy candLen b (matchCands cwd orig repos)), none) := by
  intro repos
  induction repos with
  | nil => intro b _; rfl
  | cons repo rest ih =>
    intro b hroots
    have hroots' : ∀ r ∈ rest, r._root ≠ none :=
      fun r hrm => hroots r (List.mem_cons_of_mem repo hrm)
    rcases hr : repo._root with _ | root
    · exact absurd hr (hroots repo (List.mem_cons_self repo rest))
    have hrel : relpath cwd orig root = .ok (relOf cwd orig root) := by
      unfold relpath
      rw [if_neg horig]
    by_cases hsw : pyStartsWith (relOf cwd orig root) ".." = true
    · -- the relative path escapes the root: no candidate from this repo
      have hgoal : updateLoop cwd orig (applyCand loc b) (repo :: rest)
          = updateLoop cwd orig (applyCand loc b) rest := by
        simp only [updateLoop, hr, hrel]
        rw [if_neg (by simp [hsw])]
      have hm : matchCands cwd orig (repo :: rest) = matchCands cwd orig rest := by
        simp only [matchCands, hr, hrel]
        rw [if_pos hsw]
      rw [hgoal, hm]
      exact ih b hroots'
    · have hm : matchCands cwd orig (repo :: rest)
          = (repo, relOf cwd orig root) :: matchCands cwd orig rest := by
        simp only [matchCands, hr, hrel]
        rw [if_neg hsw]
      have hgoal : updateLoop cwd orig (applyCand loc b) (repo :: rest)
          = if (applyCand loc b).repo = none
               ∨ (applyCand loc b).path.length > (relOf cwd orig root).length then
              updateLoop cwd orig
                { applyCand loc b with repo := some repo, path := relOf cwd orig root } rest
            else updateLoop cwd orig (applyCand loc b) rest := by
        simp only [updateLoop, hr, hrel]
        rw [if_pos (by simp [hsw])]
      rw [hgoal, hm]
      rcases b with _ | ⟨r₀, p₀⟩
      · -- no candidate stored yet: the first match is always taken
        rw [if_pos (Or.inl (show (applyCand loc none).repo = none from hrepo))]
        have hb : bestOfBy candLen none ((repo, relOf cwd orig root) :: matchCands cwd orig rest)
            = bestOfBy candLen (some (repo, relOf cwd orig root)) (matchCands cwd orig rest) := rfl
        rw [hb]
        exact ih (some (repo, relOf cwd orig root)) hroots'
      · -- a candidate is stored: replace only if strictly shorter
        have happly : applyCand loc (some (r₀, p₀))
            = { loc with repo := some r₀, path := p₀ } := rfl
        by_cases hlen : p₀.length > (relOf cwd orig root).length
        · rw [if_pos (Or.inr (show (applyCand loc (some (r₀, p₀))).path.length
              > (relOf cwd orig root).length from hlen))]
          have hb : bestOfBy candLen (some (r₀, p₀))
                ((repo, relOf cwd orig root) :: matchCands cwd orig rest)
              = bestOfBy candLen
                  (if candLen (repo, relOf cwd orig root) < candLen (r₀, p₀)
                   then some (repo, relOf cwd orig root) else some (r₀, p₀))
                  (matchCands cwd orig rest) := rfl
          rw [hb, if_pos (by simpa [candLen] using hlen)]
          exact ih (some (repo, relOf cwd orig root)) hroots'
        · rw [if_neg (show ¬ ((applyCand loc (some (r₀, p₀))).repo = none
              ∨ (applyCand loc (some (r₀, p₀))).path.length > (relOf cwd orig root).length) by
            rintro (hc | hc)
            · exact Option.noConfusion (happly ▸ hc)
            · exact hlen hc)]
          have hb : bestOfBy candLen (some (r₀, p₀))
                ((repo, relOf cwd orig root) :: matchCands cwd orig rest)
              = bestOfBy candLen
                  (if candLen (repo, relOf cwd orig root) < candLen (r₀, p₀)
                   then some (repo, relOf cwd orig root) else some (r₀, p₀))
                  (matchCands cwd orig rest) := rfl
          rw [hb, if_neg (by simpa [candLen] using hlen)]
          exact ih (some (r₀, p₀)) hroots'

/-- C4: for an unbound location and repositories that all have roots, a
repository matches exactly when the relative path of the file from its
root does not start with the parent-directory marker (the `matchCands`
list), and the loop binds the location to the first match attaining the
minimum relative-path length: strictly shorter candidates replace the
stored one, so equal-length later matches lose. -/
theorem update_in_repos_selects_shortest (cwd : String) (loc : FileLocation)
    (repos : List Repository) (hrepo : loc.repo = none) (hpath : loc.path ≠ "")
    (hroots : ∀ r ∈ repos, r._root ≠ none) :
    _update_in_repos cwd loc repos
      = (applyCand loc (firstMinBy candLen (matchCands cwd loc.path repos)), none)
    ∧ (∀ c, firstMinBy candLen (matchCands cwd loc.path repos) = some c →
        c ∈ matchCands cwd loc.path repos
        ∧ (∀ d ∈ matchCands cwd loc.path repos, candLen c ≤ candLen d)
        ∧ ∃ l₁ l₂, matchCands cwd loc.path repos = l₁ ++ c :: l₂
            ∧ ∀ d ∈ l₁, candLen c < candLen d)
    ∧ (matchCands cwd loc.path repos = []
        → _update_in_repos cwd loc repos = (loc, none)) := by
  have hmain : _update_in_repos cwd loc repos
      = (applyCand loc (firstMinBy candLen (matchCands cwd loc.path repos)), none) := by
    simp only [_update_in_repos, hrepo]
    have h1 := updateLoop_bestOf cwd loc.path loc hrepo hpath repos none hroots
    rw [bestOfBy_none_eq_firstMinBy] at h1
    exact h1
  refine ⟨hmain, ?_, ?_⟩
  · intro c hc
    exact ⟨firstMinBy_mem _ _ c hc, firstMinBy_min _ _ c hc, firstMinBy_first _ _ c hc⟩
  · intro hempty
    rw [hmain, hempty]
    rfl

theorem update_in_repos_selects_shortest_witness :
    _update_in_repos "/"
        { cls := .inputFileLocation, details := none, repo := none,
          path := "/data/proj/sub/file.txt", file_size := some 100 }
        [mkRepository "/" "10.5281/zenodo.1" (some "/data/proj") none none,
         mkRepository "/" "10.5281/zenodo.2" (some "/data/proj/sub") none none]
      = (applyCand
          { cls := .inputFileLocation, details := none, repo := none,
            path := "/data/proj/sub/file.txt", file_size := some 100 }
          (firstMinBy candLen (matchCands "/" "/data/proj/sub/file.txt"
            [mkRepository "/" "10.5281/zenodo.1" (some "/data/proj") none none,
             mkRepository "/" "10.5281/zenodo.2" (some "/data/proj/sub") none none])), none)
    ∧ (∀ c, firstMinBy candLen (matchCands "/" "/data/proj/sub/file.txt"
          [mkRepository "/" "10.5281/zenodo.1" (some "/data/proj") none none,
           mkRepository "/" "10.5281/zenodo.2" (some "/data/proj/sub") none none]) = some c →
        c ∈ matchCands "/" "/data/proj/sub/file.txt"
          [mkRepository "/" "10.5281/zenodo.1" (some "/data/proj") none none,
           mkRepository "/" "10.5281/zenodo.2" (some "/data/proj/sub") none none]
        ∧ (∀ d ∈ matchCands "/" "/data/proj/sub/file.txt"
            [mkRepository "/" "10.5281/zenodo.1" (some "/data/proj") none none,
             mkRepository "/" "10.5281/zenodo.2" (some "/data/proj/sub") none none],
            candLen c ≤ candLen d)
        ∧ ∃ l₁ l₂, matchCands "/" "/data/proj/sub/file.txt"
            [mkRepository "/" "10.5281/zenodo.1" (some "/data/proj") none none,
             mkRepository "/" "10.5281/zenodo.2" (some "/data/proj/sub") none none]
            = l₁ ++ c :: l₂ ∧ ∀ d ∈ l₁, candLen c < candLen d)
    ∧ (matchCands "/" "/data/proj/sub/file.txt"
          [mkRepository "/" "10.5281/zenodo.1" (some "/data/proj") none none,
           mkRepository "/" "10.5281/zenodo.2" (some "/data/proj/sub") none none] = []
        → _update_in_repos "/"
            { cls := .inputFileLocation, details := none, repo := none,
              path := "/data/proj/sub/file.txt", file_size := some 100 }
            [mkRepository "/" "10.5281/zenodo.1" (some "/data/proj") none none,
             mkRepository "/" "10.5281/zenodo.2" (some "/data/proj/sub") none none]
          = ({ cls := .inputFileLocation, details := none, repo := none,
               path := "/data/proj/sub/file.txt", file_size := some 100 }, none)) :=
  update_in_repos_selects_shortest "/" _ _ rfl (by decide) (by decide)

/-- The worked example from the specification: with roots
/data/proj and /data/proj/sub, the location is bound to the deeper
repository, whose relative path file.txt is shortest. -/
theorem update_in_repos_spec_example :
    (_update_in_repos "/"
        { cls := .inputFileLocation, details := none, repo := none,
          path := "/data/proj/sub/file.txt", file_size := some 100 }
        [mkRepository "/" "10.5281/zenodo.1" (some "/data/proj") none none,
         mkRepository "/" "10.5281/zenodo.2" (some "/data/proj/sub") none none]).1.path
      = "file.txt"
    ∧ (_update_in_repos "/"
        { cls := .inputFileLocation, details := none, repo := none,
          path := "/data/proj/sub/file.txt", file_size := some 100 }
        [mkRepository "/" "10.5281/zenodo.1" (some "/data/proj") none none,
         mkRepository "/" "10.5281/zenodo.2" (some "/data/proj/sub") none none]).1.repo
      = some (mkRepository "/" "10.5281/zenodo.2" (some "/data/proj/sub") none none) := by
  decide

/-- C2 counterexample: a well-typed `FileLocation` (produced by the
constructor) and a repository constructed without a root make
`_update_in_repos` raise an `AttributeError` when it reads the missing
`_root` attribute, so repository resolution is not total. -/
theorem update_in_repos_rootless_raises :
    mkFileLocation ⟨fun _ => true, fun _ => 42, "/home"⟩ .inputFileLocation
        "/data/file.txt" none none
      = .ok { cls := .inputFileLocation, details := none, repo := none,
              path := "/data/file.txt", file_size := some 42 }
    ∧ (_update_in_repos "/home"
        { cls := .inputFileLocation, details := none, repo := none,
          path := "/data/file.txt", file_size := some 42 }
        [mkRepository "/home" "10.5281/zenodo.1" none none none]).2
      = some (.attributeError "Repository object has no attribute _root") := by
  constructor
  · rfl
  · rfl

/-- C2 amended: `_update_in_repos` raises nothing — for any location —
whenever every repository in the sequence has a root set and the
location path is nonempty (as the constructor guarantees); a repository
without a root instead triggers an `AttributeError`. -/
theorem update_in_repos_total_with_roots (cwd : String) (loc : FileLocation)
    (repos : List Repository) (hroots : ∀ r ∈ repos, r._root ≠ none)
    (hpath : loc.path ≠ "") :
    (_update_in_repos cwd loc repos).2 = none := by
  rcases hrepo : loc.repo with _ | r
  · simp only [_update_in_repos, hrepo]
    show (updateLoop cwd loc.path (applyCand loc none) repos).2 = none
    rw [updateLoop_bestOf cwd loc.path loc hrepo hpath repos none hroots]
  · simp only [_update_in_repos, hrepo]

theorem update_in_repos_total_with_roots_witness :
    (_update_in_repos "/"
        { cls := .fileLocation, details := none, repo := none,
          path := "/a/b", file_size := none }
        [mkRepository "/" "10.5281/zenodo.9" (some "/a") none none]).2 = none :=
  update_in_repos_total_with_roots "/" _ _ (by decide) (by decide)

/-! Location equality. -/

theorem locEq_eq_tupleEq (a b : Location) :
    locEq a b = tupleEq
      (.clsV a.cls :: (_eq_keys a.cls).map (fun k => (pyGetattr a k).getD .noneV))
      (.clsV b.cls :: (_eq_keys b.cls).map (fun k => (pyGetattr b k).getD .noneV)) := rfl

theorem pyEq_clsV (c₁ c₂ : LocClass) :
    pyEq (.clsV c₁) (.clsV c₂) = .ok (decide (c₁ = c₂)) := rfl

theorem pyEq_refl (v : PyVal) : pyEq v v = .ok true := by
  cases v <;> simp [pyEq, repoEq]

theorem locEq_ne_cls (a b : Location) (h : a.cls ≠ b.cls) : locEq a b = .ok false := by
  rw [locEq_eq_tupleEq]
  show (match pyEq (.clsV a.cls) (.clsV b.cls) with
        | .error e => (.error e : Except PyError Bool)
        | .ok true => tupleEq ((_eq_keys a.cls).map (fun k => (pyGetattr a k).getD .noneV))
            ((_eq_keys b.cls).map (fun k => (pyGetattr b k).getD .noneV))
        | .ok false => .ok false) = .ok false
  rw [pyEq_clsV, decide_eq_false h]

theorem locEq_reduce_same_cls (a b : Location) (hcls : a.cls = b.cls) :
    locEq a b = tupleEq
      ((_eq_keys a.cls).map (fun k => (pyGetattr a k).getD .noneV))
      ((_eq_keys a.cls).map (fun k => (pyGetattr b k).getD .noneV)) := by
  rw [locEq_eq_tupleEq]
  show (match pyEq (.clsV a.cls) (.clsV b.cls) with
        | .error e => (.error e : Except PyError Bool)
        | .ok true => tupleEq ((_eq_keys a.cls).map (fun k => (pyGetattr a k).getD .noneV))
            ((_eq_keys b.cls).map (fun k => (pyGetattr b k).getD .noneV))
        | .ok false => .ok false) = _
  rw [pyEq_clsV, decide_eq_true hcls, ← hcls]

theorem tupleEq_map (keys : List String) (f g : String → PyVal) :
    tupleEq (keys.map f) (keys.map g) = .ok true
      ↔ ∀ k ∈ keys, pyEq (f k) (g k) = .ok true := by
  induction keys with
  | nil => simp [tupleEq]
  | cons k ks ih =>
    have hstep : tupleEq ((k :: ks).map f) ((k :: ks).map g)
        = match pyEq (f k) (g k) with
          | .error e => .error e
          | .ok true => tupleEq (ks.map f) (ks.map g)
          | .ok false => .ok false := rfl
    rw [hstep]
    rcases hp : pyEq (f k) (g k) with e | b
    · constructor
      · intro h
        exact Except.noConfusion h
      · intro hall
        have := hall k (List.mem_cons_self k ks)
        rw [hp] at this
        exact Except.noConfusion this
    · cases b
      · constructor
        · intro h
          exact Except.noConfusion h (by intro he; exact Bool.noConfusion he)
        · intro hall
          have := hall k (List.mem_cons_self k ks)
          rw [hp] at this
          have hfb : false = true := by
            have := Except.ok.inj this
            exact this
          exact Bool.noConfusion hfb
      · constructor
        · intro h
          intro k' hk'
          rcases List.mem_cons.mp hk' with rfl | hmem
          · exact hp
          · exact (ih.mp h) k' hmem
        · intro hall
          exact ih.mpr (fun k' hk' => hall k' (List.mem_cons_of_mem k hk'))

theorem pyGetattr_eq_keys_isSome (l : Location) :
    ∀ k ∈ _eq_keys l.cls, (pyGetattr l k).isSome = true := by
  cases l with
  | base i d =>
    intro k hk
    simp [Location.cls, _eq_keys] at hk
  | db i c dd fields =>
    intro k hk
    simp only [Location.cls, _eq_keys, List.mem_cons, List.not_mem_nil, or_false] at hk
    rcases hk with rfl | rfl | rfl <;> rfl
  | file i f =>
    intro k hk
    simp only [Location.cls, _eq_keys, List.mem_cons, List.not_mem_nil, or_false] at hk
    rcases hk with rfl | rfl | rfl <;> rfl

theorem withDetails_cls (a : Location) (d : Option String) :
    (withDetails a d).cls = a.cls := by
  cases a <;> rfl

theorem pyGetattr_withDetails (a : Location) (d : Option String) :
    ∀ k ∈ _eq_keys a.cls, pyGetattr (withDetails a d) k = pyGetattr a k := by
  cases a with
  | base i dd =>
    intro k hk
    simp [Location.cls, _eq_keys] at hk
  | db i c dd fields =>
    intro k hk
    simp only [Location.cls, _eq_keys, List.mem_cons, List.not_mem_nil, or_false] at hk
    rcases hk with rfl | rfl | rfl <;> rfl
  | file i f =>
    intro k hk
    simp only [Location.cls, _eq_keys, List.mem_cons, List.not_mem_nil, or_false] at hk
    rcases hk with rfl | rfl | rfl <;> rfl

theorem pyEq_getD_eq_pyEqO (x y : Location) (k : String)
    (hx : (pyGetattr x k).isSome = true) (hy : (pyGetattr y k).isSome = true) :
    pyEq ((pyGetattr x k).getD .noneV) ((pyGetattr y k).getD .noneV)
      = pyEqO (pyGetattr x k) (pyGetattr y k) := by
  obtain ⟨va, hva⟩ := Option.isSome_iff_exists.mp hx
  obtain ⟨vb, hvb⟩ := Option.isSome_iff_exists.mp hy
  rw [hva, hvb]
  rfl

/-- C6: for classes that do not opt into `_allow_duplicates` (no class
in this module does), two locations compare equal exactly when they
share the concrete class and every attribute named in `_eq_keys`
compares equal under Python equality; `details` is not an equality key,
so changing it never breaks equality, and locations of different
concrete classes compare not-equal (the class heads the `_eq_vals`
tuple, so the scan stops before any attribute is compared). -/
theorem location_eq_keys (a b : Location)
    (_ha : _allow_duplicates a.cls = false) (_hb : _allow_duplicates b.cls = false) :
    (locEq a b = .ok true
      ↔ a.cls = b.cls ∧ ∀ k ∈ _eq_keys a.cls,
          pyEqO (pyGetattr a k) (pyGetattr b k) = .ok true)
    ∧ (∀ d₁ d₂ : Option String, locEq (withDetails a d₁) (withDetails a d₂) = .ok true)
    ∧ (a.cls ≠ b.cls → locEq a b = .ok false) := by
  refine ⟨?_, ?_, locEq_ne_cls a b⟩
  · constructor
    · intro h
      have hcls : a.cls = b.cls := by
        by_contra hne
        rw [locEq_ne_cls a b hne] at h
        have hfb : false = true := Except.ok.inj h
        exact Bool.noConfusion hfb
      refine ⟨hcls, ?_⟩
      rw [locEq_reduce_same_cls a b hcls, tupleEq_map] at h
      intro k hk
      rw [← pyEq_getD_eq_pyEqO a b k (pyGetattr_eq_keys_isSome a k hk)
            (pyGetattr_eq_keys_isSome b k (hcls ▸ hk))]
      exact h k hk
    · rintro ⟨hcls, hall⟩
      rw [locEq_reduce_same_cls a b hcls, tupleEq_map]
      intro k hk
      rw [pyEq_getD_eq_pyEqO a b k (pyGetattr_eq_keys_isSome a k hk)
            (pyGetattr_eq_keys_isSome b k (hcls ▸ hk))]
      exact hall k hk
  · intro d₁ d₂
    have hcls12 : (withDetails a d₁).cls = (withDetails a d₂).cls := by
      rw [withDetails_cls, withDetails_cls]
    rw [locEq_reduce_same_cls _ _ hcls12, tupleEq_map]
    intro k hk
    have hk' : k ∈ _eq_keys a.cls := by
      rw [withDetails_cls] at hk
      exact hk
    rw [pyGetattr_withDetails a d₁ k hk', pyGetattr_withDetails a d₂ k hk']
    exact pyEq_refl _

theorem location_eq_keys_witness :
    (locEq locA locB = .ok true
      ↔ locA.cls = locB.cls
        ∧ ∀ k ∈ _eq_keys locA.cls, pyEqO (pyGetattr locA k) (pyGetattr locB k) = .ok true)
    ∧ (∀ d₁ d₂ : Option String, locEq (withDetails locA d₁) (withDetails locA d₂) = .ok true)
    ∧ (locA.cls ≠ locB.cls → locEq locA locB = .ok false) :=
  location_eq_keys locA locB rfl rfl

/-- C3 counterexample: `Location.__eq__` evaluates the `_eq_vals`
attribute of the other operand, so comparing a location with an `int`
raises `AttributeError` instead of returning not-equal. -/
theorem location_eq_unrelated_raises :
    locEqAny (.base 0 none) (.intObj 42)
      = .error (.attributeError "int object has no attribute _eq_vals") := rfl

/-- C3 amended: comparing a `Location` against an operand of an
unrelated type that lacks `_eq_vals` raises `AttributeError`; between
two `Location` instances of different concrete classes the comparison
returns not-equal without raising. -/
theorem location_eq_unrelated_amended (a b : Location) (h : a.cls ≠ b.cls) :
    locEqAny a (.loc b) = .ok false
    ∧ (∀ n : Int, locEqAny a (.intObj n)
        = .error (.attributeError "int object has no attribute _eq_vals"))
    ∧ (∀ s : String, locEqAny a (.strObj s)
        = .error (.attributeError "str object has no attribute _eq_vals")) := by
  refine ⟨?_, fun n => rfl, fun s => rfl⟩
  show locEq a b = .ok false
  exact locEq_ne_cls a b h

theorem location_eq_unrelated_amended_witness :
    locEqAny (.base 0 none) (.loc (.db 1 .pdbLocation none ⟨"PDB", "1abc", none⟩)) = .ok false
    ∧ (∀ n : Int, locEqAny (.base 0 none) (.intObj n)
        = .error (.attributeError "int object has no attribute _eq_vals"))
    ∧ (∀ s : String, locEqAny (.base 0 none) (.strObj s)
        = .error (.attributeError "str object has no attribute _eq_vals")) :=
  location_eq_unrelated_amended (.base 0 none) (.db 1 .pdbLocation none ⟨"PDB", "1abc", none⟩)
    (by decide)
